import Mathlib

/-!
# Verification of the tauri-mc launcher against its specification

Shallow embedding of the launcher's frontend logic
(`src/App.tsx`, `src/components/*.tsx`, `src/types/types.d.ts`) together
with models of the backend commands that the repository snapshot does not
contain (the Rust side); those models are taken from the specification and
are marked `Modelled from the spec:` in their doc comments.
-/

namespace TauriMc

/-- The instance state union type as declared in `src/types/types.d.ts`
line 28: `state: "ready" | "installing" | "running" | "error"`.
Note the declaration has exactly these four alternatives. -/
inductive InstanceState where
  | ready
  | installing
  | running
  | error
deriving DecidableEq, Repr

/-- The string carried by each alternative of the declared state union. -/
def InstanceState.toStr : InstanceState → String
  | .ready => "ready"
  | .installing => "installing"
  | .running => "running"
  | .error => "error"

/-- The `Instance` interface from `src/types/types.d.ts` lines 22-38.
Optional fields (`?`) become `Option`. -/
structure Instance where
  id : String
  name : String
  version : String
  icon : Option String
  lastPlayed : Option String
  state : InstanceState
  java_path : Option String
  java_path_override : Option String
  max_memory : Option Nat
  min_memory : Option Nat
  java_args : Option String
  java_warning_ignored : Bool
  loader : Option String
  loader_version : Option String
  mc_version : Option String
deriving DecidableEq, Repr

/-- The `JavaCompatibility` interface from `src/App.tsx` lines 32-37. -/
structure JavaCompatibility where
  compatible : Bool
  actual_version : Option Int
  required_version : Int
  path : String
deriving DecidableEq, Repr

/-- The `LoaderCandidate` interface from `src/types/types.d.ts` lines 77-83. -/
structure LoaderCandidate where
  project_id : String
  project_title : String
  version_id : String
  version_number : String
  game_versions : List String
deriving DecidableEq, Repr

/-- The class-name computation of `InstanceCard.tsx` line 57:
``className={`instance-card ${instance.state === "crashed" ? "crashed" : ""}`}``.
The runtime state value is a string, so the comparison is modelled on
strings. -/
def instanceCardClassName (state : String) : String :=
  "instance-card " ++ (if state = "crashed" then "crashed" else "")

/-- The `instance-state-changed` listener of `src/App.tsx` lines 149-153:
`prev.map((i) => (i.id === event.payload.id ? event.payload : i))`. -/
def instanceStateChangedHandler (prev : List Instance) (payload : Instance) :
    List Instance :=
  prev.map (fun i => if i.id = payload.id then payload else i)

/-- JavaScript `arr.slice(-n)`: the last `min n arr.length` elements. -/
def jsSliceLast (n : Nat) (l : List String) : List String :=
  l.drop (l.length - n)

/-- One step of the `instance-log` listener of `src/App.tsx` lines 155-166:
`[...(prev[id] || []), event.payload.message].slice(-1000)`. -/
def instanceLogStep (buf : List String) (msg : String) : List String :=
  jsSliceLast 1000 (buf ++ [msg])

/-- The per-instance log buffer after a sequence of `instance-log` events
for one instance, starting from the absent entry `prev[id] || []`. -/
def instanceLogsAfter (msgs : List String) : List String :=
  msgs.foldl instanceLogStep []

/-- The Save button handler of the instance settings modal,
`src/App.tsx` lines 1099-1122: looks up the previously stored instance by
id and clears `java_warning_ignored` when `java_path_override` changed. -/
def saveInstanceClick (instances : List Instance) (modal : Instance) :
    Instance :=
  match instances.find? (fun i => i.id == modal.id) with
  | some prev =>
      if prev.java_path_override ≠ modal.java_path_override then
        { modal with java_warning_ignored := false }
      else modal
  | none => modal

/-- The outcome of pressing Play, distinguishing the three branches of
`playInstance` in `src/App.tsx` lines 256-283. -/
inductive PlayAction where
  | killRequested
  | launchRequested
  | javaDialogShown
deriving DecidableEq, Repr

/-- `playInstance` from `src/App.tsx` lines 256-283. The
`check_java_compatibility` invocation either resolves with a
`JavaCompatibility` value or rejects; a rejection lands in the `catch`
block, which calls `launchAction`. -/
def playInstanceAction (inst : Instance) (check : Except String JavaCompatibility) :
    PlayAction :=
  if inst.state = InstanceState.running then .killRequested
  else
    match check with
    | .ok c => if c.compatible then .launchRequested else .javaDialogShown
    | .error _ => .launchRequested

/-- JavaScript truthiness of an optional string field: `undefined` and the
empty string are falsy. -/
def jsTruthyStr : Option String → Bool
  | none => false
  | some s => s ≠ ""

/-- The follow-up action the modpack-install handler takes after
`download_version`, `src/App.tsx` lines 1516-1557. -/
inductive ModpackFollowup where
  | autoInstallLoader (projectId versionId : String)
  | promptLoaderChoice
  | noCandidatesError
  | loaderAlreadyInstalled
  | noAction
deriving DecidableEq, Repr

/-- The loader follow-up branch of the modpack Install handler,
`src/App.tsx` lines 1517-1556: when `newInst.loader && !newInst.loader_version`,
the result of `find_loader_candidates` is dispatched on:
exactly one candidate is installed automatically, several open the
chooser, none shows an error toast. -/
def modpackFollowupAction (inst : Instance) (candidates : List LoaderCandidate) :
    ModpackFollowup :=
  if jsTruthyStr inst.loader && !(jsTruthyStr inst.loader_version) then
    match candidates with
    | [c] => .autoInstallLoader c.project_id c.version_id
    | [] => .noCandidatesError
    | _ => .promptLoaderChoice
  else if jsTruthyStr inst.loader && jsTruthyStr inst.loader_version then
    .loaderAlreadyInstalled
  else .noAction

/-- Removal of one trailing occurrence of `suf`, as performed by the
anchored JavaScript `str.replace(/suf$/, "")` in
`getModDisplayName` (`ModManager` in `src/types/types.d.ts` lines 299-301). -/
def stripSuffixExact (suf s : String) : String :=
  if suf.data <:+ s.data then ⟨s.data.take (s.data.length - suf.data.length)⟩
  else s

/-- `isModDisabled` from `ModManager` (`src/types/types.d.ts` lines 295-297):
`filename.endsWith(".disabled")`. -/
def isModDisabled (filename : String) : Bool :=
  decide ((".disabled" : String).data <:+ filename.data)

/-- `getModDisplayName` from `ModManager` (`src/types/types.d.ts`
lines 299-301):
`filename.replace(/\.disabled$/, "").replace(/\.jar$/, "")`. -/
def getModDisplayName (filename : String) : String :=
  stripSuffixExact ".jar" (stripSuffixExact ".disabled" filename)

/-- One file of an instance's `mods/` directory: its file name and its
byte contents. -/
structure ModFile where
  name : String
  bytes : List Nat
deriving DecidableEq, Repr

/-- Modelled from the spec: the rename performed on one directory entry by
the backend command `toggle_mod(instance, filename, enabled)` (spec §4.8,
"renames between `.jar` ↔ `.jar.disabled`; operation is a pure filesystem
rename"); the Rust implementation is not part of the repository snapshot.
Disabling appends `.disabled` to the named file; enabling removes that
suffix from the named file. -/
def toggleModEntry (filename : String) (enabled : Bool) (f : ModFile) : ModFile :=
  if f.name = filename then
    { f with name :=
        if enabled then stripSuffixExact ".disabled" filename
        else filename ++ ".disabled" }
  else f

/-- Modelled from the spec: the effect of `toggle_mod` on the whole
`mods/` directory, renaming the entry called `filename` and touching
nothing else. -/
def toggleMod (dir : List ModFile) (filename : String) (enabled : Bool) :
    List ModFile :=
  dir.map (toggleModEntry filename enabled)

/-- Decimal rendering of a natural number, digit list in big-endian order. -/
def natDecimal (n : Nat) : String :=
  if n = 0 then "0" else ⟨((Nat.digits 10 n).map Nat.digitChar).reverse⟩

/-- The name produced by appending the collision suffix `" (k)"` to a
requested instance name, as in spec §4.9 ("appending `\" (N)\"` at
creation time"). -/
def suffixName (base : String) (k : Nat) : String :=
  base ++ " (" ++ natDecimal k ++ ")"

/-- Modelled from the spec: the search for the minimal free suffix index,
starting at 2 and advancing while the candidate name is taken. The fuel
argument only bounds the loop; `existing.length + 1` steps always
suffice. -/
def firstFreeIndex (existing : List String) (base : String) :
    Nat → Nat → Nat
  | 0, k => k
  | fuel + 1, k =>
      if suffixName base k ∈ existing then firstFreeIndex existing base fuel (k + 1)
      else k

/-- Modelled from the spec: name uniqueness of `create_instance`
(spec §4.9, "Name uniqueness is enforced by appending `\" (N)\"` at
creation time (N chosen minimally so no existing instance shares the
name)"); the Rust implementation is not part of the repository
snapshot. -/
def uniqueName (existing : List String) (base : String) : String :=
  if base ∈ existing then
    suffixName base (firstFreeIndex existing base (existing.length + 1) 2)
  else base

/-- The instance names present after `n` `create_instance` calls that all
request the same name `base`, starting from an empty store. -/
def createInstanceNames (base : String) : Nat → List String
  | 0 => []
  | n + 1 =>
      let prev := createInstanceNames base n
      prev ++ [uniqueName prev base]

/-- The name sequence the claim asserts: `X, X (2), …, X (N)`. -/
def claimedNames (base : String) (n : Nat) : List String :=
  (List.range n).map (fun i => if i = 0 then base else suffixName base (i + 1))

/-- A Modrinth mod version as the backend's compatibility filter sees it
(spec §4.7): loader tags, supported game versions and the publication
date, the latter as a totally ordered timestamp. -/
structure ModVersionInfo where
  id : String
  loaders : List String
  game_versions : List String
  date_published : Nat
deriving DecidableEq, Repr

/-- Modelled from the spec: the backend command
`get_compatible_mod_versions` (spec §4.7, "Compatibility filter for a mod
version `v` w.r.t. instance `I`: `v.loaders ∋ I.loader` AND
`v.game_versions ∋ I.mc_version`. Result is sorted descending by
`date_published`"); the Rust implementation is not part of the repository
snapshot. -/
def compatibleModVersions (loader mcVersion : String)
    (versions : List ModVersionInfo) : List ModVersionInfo :=
  (versions.filter
      (fun v => decide (loader ∈ v.loaders ∧ mcVersion ∈ v.game_versions))).mergeSort
    (fun a b => decide (b.date_published ≤ a.date_published))

/-- The outcome of a modpack installation: the freshly created instance
and the events emitted while creating it. -/
structure ModpackInstallResult where
  newInstance : Instance
  events : List String
deriving DecidableEq, Repr

/-- Modelled from the spec: the backend command `install_modpack_version`
(spec §4.7 steps 1, 2 and 5); the Rust implementation is not part of the
repository snapshot. A fresh instance is created under a unique name with
the modpack's Minecraft version and loader; `resolvedLoaderVersion` is
the result of resolving the chosen loader metadata without user input
(`none` when it is not resolvable). When resolution succeeded the loader
is installed into the instance and `loader-installed` is emitted;
otherwise the instance is left with `loader_version = null`. -/
def installModpackVersion (existingNames : List String)
    (name mcVersion : String) (loader : Option String)
    (resolvedLoaderVersion : Option String) : ModpackInstallResult :=
  { newInstance :=
      { id := "new-instance"
        name := uniqueName existingNames name
        version := mcVersion
        icon := none
        lastPlayed := none
        state := .ready
        java_path := none
        java_path_override := none
        max_memory := none
        min_memory := none
        java_args := none
        java_warning_ignored := false
        loader := loader
        loader_version := resolvedLoaderVersion
        mc_version := some mcVersion }
    events :=
      match resolvedLoaderVersion with
      | some _ => ["loader-installed"]
      | none => [] }

/-! ## Helper lemmas -/

/-- Dropping to the last `n` elements twice, with material appended in
between, is the same as dropping once at the end. -/
lemma jsSliceLast_absorb (n : Nat) (l r : List String) :
    jsSliceLast n (jsSliceLast n l ++ r) = jsSliceLast n (l ++ r) := by
  unfold jsSliceLast
  rw [← List.drop_append_of_le_length (Nat.sub_le l.length n)]
  rw [List.drop_drop]
  congr 1
  simp only [List.length_drop, List.length_append]
  omega

/-- The `instance-log` fold keeps exactly the last `min 1000 n` delivered
lines. -/
lemma instanceLogsAfter_eq (msgs : List String) :
    instanceLogsAfter msgs = jsSliceLast 1000 msgs := by
  have key : ∀ (ms buf : List String),
      List.foldl instanceLogStep (jsSliceLast 1000 buf) ms =
        jsSliceLast 1000 (buf ++ ms) := by
    intro ms
    induction ms with
    | nil => intro buf; simp
    | cons m ms ih =>
        intro buf
        have h1 : instanceLogStep (jsSliceLast 1000 buf) m =
            jsSliceLast 1000 (buf ++ [m]) := by
          unfold instanceLogStep
          rw [jsSliceLast_absorb]
        calc List.foldl instanceLogStep (jsSliceLast 1000 buf) (m :: ms)
            = List.foldl instanceLogStep (jsSliceLast 1000 (buf ++ [m])) ms := by
              rw [List.foldl_cons, h1]
          _ = jsSliceLast 1000 ((buf ++ [m]) ++ ms) := ih (buf ++ [m])
          _ = jsSliceLast 1000 (buf ++ m :: ms) := by
              rw [List.append_assoc]; rfl
  have h := key msgs []
  rw [show jsSliceLast 1000 ([] : List String) = [] from rfl] at h
  simpa [instanceLogsAfter] using h

/-! ## Demonstration values, used by the closed witness theorems -/

/-- A concrete instance in the `ready` state. -/
def demoReady : Instance :=
  { id := "inst-a"
    name := "Alpha"
    version := "1.20.4"
    icon := none
    lastPlayed := none
    state := .ready
    java_path := none
    java_path_override := none
    max_memory := none
    min_memory := none
    java_args := none
    java_warning_ignored := true
    loader := none
    loader_version := none
    mc_version := none }

/-- The settings modal content for `demoReady` after the user typed a new
Java path override. -/
def demoModalChanged : Instance :=
  { demoReady with java_path_override := some "/opt/java/bin/java" }

/-- A concrete instance unrelated to `demoReady`. -/
def demoOther : Instance :=
  { demoReady with id := "inst-b", name := "Beta", state := .running }

/-- A compatible probe result for the Java check. -/
def demoJavaOk : JavaCompatibility :=
  { compatible := true
    actual_version := some 21
    required_version := 21
    path := "/usr/bin/java" }

/-! ## Claims -/

/-- C1: the state union declared in `src/types/types.d.ts` line 28 has
exactly the four alternatives `ready`, `installing`, `running`, `error`;
no value of the declared type renders as `"crashed"`, so the
`instance.state === "crashed"` branches of `InstanceCard.tsx` line 57,
`DebugSettings.tsx` line 47 and `CompactDebugSettings.tsx` line 46 are
unreachable under the declared type, contradicting the claimed five-value
enum that includes `crashed`. -/
theorem c1_declared_state_type_excludes_crashed :
    ∀ s : InstanceState,
      (s = .ready ∨ s = .installing ∨ s = .running ∨ s = .error) ∧
      s.toStr ≠ "crashed" ∧
      instanceCardClassName s.toStr = "instance-card " := by
  intro s
  cases s <;> exact ⟨by decide, by decide, by decide⟩

/-- C3: whenever the Save handler of the instance settings modal finds a
previously stored instance with the same id whose `java_path_override`
differs from the modal's, the instance it saves has
`java_warning_ignored = false`. -/
theorem c3_java_warning_cleared_on_override_change
    (instances : List Instance) (modal prev : Instance)
    (hfind : instances.find? (fun i => i.id == modal.id) = some prev)
    (hdiff : prev.java_path_override ≠ modal.java_path_override) :
    (saveInstanceClick instances modal).java_warning_ignored = false := by
  unfold saveInstanceClick
  rw [hfind]
  simp [hdiff]

/-- C3 witness: saving `demoReady` with a changed Java path override
clears the ignore flag. -/
theorem c3_witness :
    (saveInstanceClick [demoReady] demoModalChanged).java_warning_ignored
      = false :=
  c3_java_warning_cleared_on_override_change [demoReady] demoModalChanged
    demoReady (by decide) (by decide)

/-- C4 counterexample: after 1001 `instance-log` events the buffer does
not hold `min 1001 10000 = 1001` lines; the handler slices to the last
1000. -/
theorem c4_counterexample_capacity_not_10000 :
    ¬ ((instanceLogsAfter (List.replicate 1001 "line")).length =
        min 1001 10000) := by
  rw [instanceLogsAfter_eq]
  unfold jsSliceLast
  rw [List.length_drop]
  simp only [List.length_replicate]
  omega

/-- C4 amended: the in-memory log buffer for an instance is ring-buffered
at 1000 lines: after `n` delivered events it holds exactly the most
recent `min n 1000` lines in delivery order. -/
theorem c4_log_buffer_ring_1000 (msgs : List String) :
    instanceLogsAfter msgs = msgs.drop (msgs.length - 1000) ∧
    (instanceLogsAfter msgs).length = min 1000 msgs.length := by
  have h := instanceLogsAfter_eq msgs
  refine ⟨h, ?_⟩
  rw [h]
  unfold jsSliceLast
  rw [List.length_drop]
  omega

/-- C8: for a non-running instance, pressing Play requests
`launch_instance` exactly when the Java probe reports `compatible = true`
or the probe call itself rejects; only an explicit `compatible = false`
diverts to the confirmation dialog. -/
theorem c8_play_launch_condition
    (inst : Instance) (check : Except String JavaCompatibility)
    (hrun : inst.state ≠ InstanceState.running) :
    (playInstanceAction inst check = .launchRequested ↔
      (∃ c, check = .ok c ∧ c.compatible = true) ∨
      (∃ e, check = .error e)) ∧
    (playInstanceAction inst check = .javaDialogShown ↔
      ∃ c, check = .ok c ∧ c.compatible = false) := by
  unfold playInstanceAction
  rw [if_neg hrun]
  cases check with
  | ok c => cases hc : c.compatible <;> simp [hc]
  | error e => simp

/-- C8 witness: a ready instance with a compatible probe result launches. -/
theorem c8_witness :
    playInstanceAction demoReady (Except.ok demoJavaOk) = .launchRequested :=
  ((c8_play_launch_condition demoReady (Except.ok demoJavaOk)
      (by decide)).1).mpr (Or.inl ⟨demoJavaOk, rfl, rfl⟩)

/-- C9: the `instance-state-changed` handler rewrites exactly the entries
whose id equals the payload's id and leaves every other entry unchanged;
when no entry carries the payload's id the list is returned identically
(nothing is inserted). -/
theorem c9_state_changed_frame (prev : List Instance) (p : Instance) :
    (∀ j : Nat,
      (instanceStateChangedHandler prev p)[j]? =
        prev[j]?.map (fun i => if i.id = p.id then p else i)) ∧
    ((∀ i ∈ prev, i.id ≠ p.id) → instanceStateChangedHandler prev p = prev) := by
  constructor
  · intro j
    simp [instanceStateChangedHandler]
  · intro h
    unfold instanceStateChangedHandler
    conv_rhs => rw [← List.map_id prev]
    apply List.map_congr_left
    intro i hi
    simp [h i hi]

/-- C9 witness: an event for an id absent from the list leaves the list
identical. -/
theorem c9_witness :
    instanceStateChangedHandler [demoReady] demoOther = [demoReady] :=
  (c9_state_changed_frame [demoReady] demoOther).2 (by decide)

/-- Removing a trailing `suf` from `x ++ suf` recovers `x`. -/
lemma stripSuffixExact_append (suf x : String) :
    stripSuffixExact suf (x ++ suf) = x := by
  unfold stripSuffixExact
  rw [if_pos]
  · apply String.ext
    show (x ++ suf).data.take ((x ++ suf).data.length - suf.data.length) = x.data
    rw [String.data_append, List.length_append]
    have hlen : x.data.length + suf.data.length - suf.data.length =
        x.data.length := by omega
    rw [hlen, List.take_left]
  · rw [String.data_append]
    exact List.suffix_append _ _

/-- A string ending in `".jar"` never ends in `".disabled"`. -/
lemma not_disabled_suffix_of_jar (x : String) :
    ¬ ((".disabled" : String).data <:+ (x ++ ".jar").data) := by
  intro h
  rw [← List.reverse_prefix, String.data_append, List.reverse_append] at h
  rw [show (".disabled" : String).data.reverse =
      ['d', 'e', 'l', 'b', 'a', 's', 'i', 'd', '.'] from rfl] at h
  rw [show (".jar" : String).data.reverse = ['r', 'a', 'j', '.'] from rfl] at h
  simp only [List.cons_append] at h
  exact absurd (List.cons_prefix_cons.mp h).1 (by decide)

/-- C10: display names coincide for an enabled mod file and its disabled
twin, both reducing to the bare name, and a listed mod counts as disabled
exactly when its filename ends with `".disabled"`. -/
theorem c10_mod_display_name (s : String)
    (hjar : ¬ ((".jar" : String).data <:+ s.data))
    (hdis : ¬ ((".disabled" : String).data <:+ s.data)) :
    getModDisplayName (s ++ ".jar") = s ∧
    getModDisplayName (s ++ ".jar.disabled") = s ∧
    ∀ f : String,
      isModDisabled f = true ↔ (".disabled" : String).data <:+ f.data := by
  refine ⟨?_, ?_, ?_⟩
  · have hne : stripSuffixExact ".disabled" (s ++ ".jar") = s ++ ".jar" := by
      unfold stripSuffixExact
      rw [if_neg (not_disabled_suffix_of_jar s)]
    unfold getModDisplayName
    rw [hne]
    exact stripSuffixExact_append ".jar" s
  · have hsplit : s ++ ".jar.disabled" = (s ++ ".jar") ++ ".disabled" := by
      apply String.ext
      rw [String.data_append, String.data_append, String.data_append,
        List.append_assoc]
      rfl
    rw [hsplit]
    unfold getModDisplayName
    rw [stripSuffixExact_append]
    exact stripSuffixExact_append ".jar" s
  · intro f
    simp [isModDisabled]

/-- C10 witness: instantiated at the base name `"sodium"`. -/
theorem c10_witness :
    getModDisplayName ("sodium" ++ ".jar") = "sodium" ∧
    getModDisplayName ("sodium" ++ ".jar.disabled") = "sodium" :=
  ⟨(c10_mod_display_name "sodium" (by decide) (by decide)).1,
   (c10_mod_display_name "sodium" (by decide) (by decide)).2.1⟩

/-- C6: on a mods directory not already containing the disabled twin of
`f`, disabling `f` and then enabling the resulting `f ++ ".disabled"`
restores every entry, filename and byte contents included. -/
theorem c6_toggle_roundtrip (dir : List ModFile) (f : String)
    (hnot : ∀ m ∈ dir, m.name ≠ f ++ ".disabled") :
    toggleMod (toggleMod dir f false) (f ++ ".disabled") true = dir := by
  unfold toggleMod
  rw [List.map_map]
  conv_rhs => rw [← List.map_id dir]
  apply List.map_congr_left
  intro m hm
  show toggleModEntry (f ++ ".disabled") true (toggleModEntry f false m) = id m
  by_cases hmf : m.name = f
  · have h1 : toggleModEntry f false m = { m with name := f ++ ".disabled" } := by
      unfold toggleModEntry
      rw [if_pos hmf]
      rfl
    rw [h1]
    unfold toggleModEntry
    rw [if_pos rfl]
    show ({ m with name := stripSuffixExact ".disabled" (f ++ ".disabled") } :
      ModFile) = id m
    rw [stripSuffixExact_append, ← hmf]
    rfl
  · have h1 : toggleModEntry f false m = m := by
      unfold toggleModEntry
      rw [if_neg hmf]
    rw [h1]
    unfold toggleModEntry
    rw [if_neg (hnot m hm)]
    rfl

/-- A concrete mods directory. -/
def demoMods : List ModFile :=
  [{ name := "sodium.jar", bytes := [80, 75, 3, 4] },
   { name := "lithium.jar", bytes := [80, 75] }]

/-- C6 witness: round-tripping `"sodium.jar"` on the demo directory. -/
theorem c6_witness :
    toggleMod (toggleMod demoMods "sodium.jar" false)
      ("sodium.jar" ++ ".disabled") true = demoMods :=
  c6_toggle_roundtrip demoMods "sodium.jar" (by decide)

/-- C2: a version is in the compatible list returned for an instance
exactly when the instance's loader is among the version's loaders and the
instance's Minecraft version is among its game versions, and the list is
sorted descending by publication date. -/
theorem c2_compatible_filter_sorted (loader mcVersion : String)
    (versions : List ModVersionInfo) :
    (∀ v, v ∈ compatibleModVersions loader mcVersion versions ↔
      v ∈ versions ∧ loader ∈ v.loaders ∧ mcVersion ∈ v.game_versions) ∧
    (compatibleModVersions loader mcVersion versions).Pairwise
      (fun a b => b.date_published ≤ a.date_published) := by
  constructor
  · intro v
    unfold compatibleModVersions
    rw [List.mem_mergeSort, List.mem_filter]
    simp
  · unfold compatibleModVersions
    apply List.Pairwise.imp (fun hab => of_decide_eq_true hab)
    exact @List.sorted_mergeSort ModVersionInfo
      (fun a b => decide (b.date_published ≤ a.date_published))
      (by
        intro a b c hab hbc
        simp only [decide_eq_true_eq] at hab hbc ⊢
        omega)
      (by
        intro a b
        simp only [Bool.or_eq_true, decide_eq_true_eq]
        omega)
      (versions.filter
        (fun v => decide (loader ∈ v.loaders ∧ mcVersion ∈ v.game_versions)))

/-- C5: after `install_modpack_version`, a resolvable loader is recorded
on the new instance together with a `loader-installed` event, an
unresolvable one leaves `loader_version = null` and no event; the
frontend follow-up auto-installs a candidate exactly when
`find_loader_candidates` returned exactly one. -/
theorem c5_modpack_loader_resolution
    (existingNames : List String) (nm mc : String)
    (loader : Option String) (resolved : Option String)
    (inst : Instance) (cands : List LoaderCandidate) :
    (∀ v, resolved = some v →
      (installModpackVersion existingNames nm mc loader
          resolved).newInstance.loader_version = some v ∧
      "loader-installed" ∈
        (installModpackVersion existingNames nm mc loader resolved).events) ∧
    (resolved = none →
      (installModpackVersion existingNames nm mc loader
          resolved).newInstance.loader_version = none ∧
      (installModpackVersion existingNames nm mc loader resolved).events = []) ∧
    (jsTruthyStr inst.loader = true → inst.loader_version = none →
      ((∃ pid vid,
          modpackFollowupAction inst cands = .autoInstallLoader pid vid) ↔
        cands.length = 1)) := by
  refine ⟨?_, ?_, ?_⟩
  · intro v hv
    subst hv
    exact ⟨rfl, by simp [installModpackVersion]⟩
  · intro hv
    subst hv
    exact ⟨rfl, rfl⟩
  · intro hl hv
    unfold modpackFollowupAction
    rw [hv]
    have hcond : (jsTruthyStr inst.loader &&
        !(jsTruthyStr (none : Option String))) = true := by
      rw [hl]
      rfl
    rw [hcond]
    cases cands with
    | nil => simp
    | cons c cs =>
        cases cs with
        | nil => simp
        | cons d ds =>
            simp only [if_true, List.length_cons]
            constructor
            · rintro ⟨pid, vid, h⟩
              cases h
            · intro h
              omega

/-- A concrete loader candidate from Modrinth. -/
def demoCandidate : LoaderCandidate :=
  { project_id := "P7uGFii0"
    project_title := "Fabric API"
    version_id := "v123"
    version_number := "0.92.0"
    game_versions := ["1.20.4"] }

/-- A freshly installed modpack instance whose loader is known but whose
loader version is still unresolved. -/
def demoModpackInstance : Instance :=
  { demoReady with loader := some "fabric", loader_version := none }

/-- C5 witness: a resolvable loader is recorded on the new instance, and
the follow-up auto-installs when exactly one candidate exists. -/
theorem c5_witness :
    (installModpackVersion [] "Pack" "1.20.4" (some "fabric")
        (some "0.15.11")).newInstance.loader_version = some "0.15.11" ∧
    ∃ pid vid,
      modpackFollowupAction demoModpackInstance [demoCandidate] =
        .autoInstallLoader pid vid :=
  ⟨((c5_modpack_loader_resolution [] "Pack" "1.20.4" (some "fabric")
        (some "0.15.11") demoModpackInstance [demoCandidate]).1
      "0.15.11" rfl).1,
   ((c5_modpack_loader_resolution [] "Pack" "1.20.4" (some "fabric")
        (some "0.15.11") demoModpackInstance [demoCandidate]).2.2
      (by decide) rfl).mpr rfl⟩

/-- `Nat.digitChar` is injective on single digits. -/
lemma digitChar_inj_lt10 {a b : Nat} (ha : a < 10) (hb : b < 10)
    (h : Nat.digitChar a = Nat.digitChar b) : a = b := by
  interval_cases a <;> interval_cases b <;> revert h <;> decide

/-- Mapping `Nat.digitChar` over lists of single digits is injective. -/
lemma map_digitChar_inj : ∀ (l1 l2 : List Nat), (∀ d ∈ l1, d < 10) →
    (∀ d ∈ l2, d < 10) → l1.map Nat.digitChar = l2.map Nat.digitChar →
    l1 = l2 := by
  intro l1
  induction l1 with
  | nil =>
      intro l2 _ _ h
      cases l2 with
      | nil => rfl
      | cons b t => simp at h
  | cons a t ih =>
      intro l2 h1 h2 h
      cases l2 with
      | nil => simp at h
      | cons b t2 =>
          simp only [List.map_cons, List.cons.injEq] at h
          have hab : a = b :=
            digitChar_inj_lt10 (h1 a (by simp)) (h2 b (by simp)) h.1
          have ht : t = t2 :=
            ih t2 (fun d hd => h1 d (by simp [hd]))
              (fun d hd => h2 d (by simp [hd])) h.2
          rw [hab, ht]

/-- Decimal rendering is injective on positive numbers. -/
lemma natDecimal_inj {a b : Nat} (ha : 0 < a) (hb : 0 < b)
    (h : natDecimal a = natDecimal b) : a = b := by
  unfold natDecimal at h
  rw [if_neg (Nat.pos_iff_ne_zero.mp ha), if_neg (Nat.pos_iff_ne_zero.mp hb)]
    at h
  have hd : ((Nat.digits 10 a).map Nat.digitChar).reverse =
      ((Nat.digits 10 b).map Nat.digitChar).reverse := congrArg String.data h
  rw [List.reverse_inj] at hd
  have hdig : Nat.digits 10 a = Nat.digits 10 b :=
    map_digitChar_inj _ _
      (fun d hd' => Nat.digits_lt_base (by norm_num) hd')
      (fun d hd' => Nat.digits_lt_base (by norm_num) hd') hd
  have hval := congrArg (Nat.ofDigits 10) hdig
  rwa [Nat.ofDigits_digits, Nat.ofDigits_digits] at hval

/-- A requested base name never equals one of its own suffixed variants. -/
lemma suffixName_ne_base (base : String) (k : Nat) :
    base ≠ suffixName base k := by
  intro h
  have hlen := congrArg String.length h
  unfold suffixName at hlen
  simp only [String.length_append] at hlen
  have h2 : (" (" : String).length = 2 := rfl
  have h3 : (")" : String).length = 1 := rfl
  omega

/-- The suffixed variants of a base name are pairwise distinct. -/
lemma suffixName_inj (base : String) {j k : Nat} (hj : 0 < j) (hk : 0 < k)
    (h : suffixName base j = suffixName base k) : j = k := by
  unfold suffixName at h
  have hd := congrArg String.data h
  simp only [String.data_append] at hd
  have h1 := List.append_cancel_right hd
  have h2 := List.append_cancel_left h1
  exact natDecimal_inj hj hk (String.ext h2)

/-- Which suffixed names occur among the first `n` claimed names. -/
lemma mem_claimedNames_suffix (base : String) {n m : Nat} (hm : 0 < m) :
    suffixName base m ∈ claimedNames base n ↔ 2 ≤ m ∧ m ≤ n := by
  unfold claimedNames
  rw [List.mem_map]
  constructor
  · rintro ⟨i, hi, hif⟩
    rw [List.mem_range] at hi
    by_cases h0 : i = 0
    · rw [h0, if_pos rfl] at hif
      exact absurd hif (suffixName_ne_base base m)
    · rw [if_neg h0] at hif
      have := suffixName_inj base (by omega) hm hif
      omega
  · rintro ⟨h2, hn⟩
    refine ⟨m - 1, ?_, ?_⟩
    · rw [List.mem_range]
      omega
    · rw [if_neg (by omega)]
      congr 1
      omega

/-- The base name itself occurs among the claimed names once any call was
made. -/
lemma base_mem_claimedNames (base : String) {n : Nat} (hn : 0 < n) :
    base ∈ claimedNames base n := by
  unfold claimedNames
  rw [List.mem_map]
  exact ⟨0, by rw [List.mem_range]; omega, by rw [if_pos rfl]⟩

/-- There are as many claimed names as calls. -/
lemma claimedNames_length (base : String) (n : Nat) :
    (claimedNames base n).length = n := by
  unfold claimedNames
  rw [List.length_map, List.length_range]

/-- Behaviour of the bounded suffix search: starting at `k`, if the `j`
candidates `k, …, k + j - 1` are taken and `k + j` is free, the search
returns `k + j` whenever enough fuel remains. -/
lemma firstFreeIndex_run (L : List String) (base : String) :
    ∀ (j fuel k : Nat), (∀ i, i < j → suffixName base (k + i) ∈ L) →
      suffixName base (k + j) ∉ L → j < fuel →
      firstFreeIndex L base fuel k = k + j := by
  intro j
  induction j with
  | zero =>
      intro fuel k hmem hfree hfuel
      cases fuel with
      | zero => omega
      | succ f =>
          unfold firstFreeIndex
          rw [if_neg (by simpa using hfree)]
          omega
  | succ j ih =>
      intro fuel k hmem hfree hfuel
      cases fuel with
      | zero => omega
      | succ f =>
          unfold firstFreeIndex
          rw [if_pos (by simpa using hmem 0 (by omega))]
          have hmem' : ∀ i, i < j → suffixName base (k + 1 + i) ∈ L := by
            intro i hi
            have h := hmem (i + 1) (by omega)
            rwa [show k + (i + 1) = k + 1 + i from by omega] at h
          have hfree' : suffixName base (k + 1 + j) ∉ L := by
            rwa [show k + (j + 1) = k + 1 + j from by omega] at hfree
          rw [ih f (k + 1) hmem' hfree' (by omega)]
          omega

/-- The `n + 1`-st `create_instance("base")` call, with the first `n`
claimed names already present, picks the next claimed name. -/
lemma uniqueName_claimedNames (base : String) (n : Nat) :
    uniqueName (claimedNames base n) base =
      if n = 0 then base else suffixName base (n + 1) := by
  cases n with
  | zero =>
      rw [if_pos rfl]
      unfold uniqueName
      rw [if_neg (by simp [claimedNames])]
  | succ m =>
      rw [if_neg (Nat.succ_ne_zero m)]
      unfold uniqueName
      rw [if_pos (base_mem_claimedNames base (Nat.succ_pos m))]
      congr 1
      rw [claimedNames_length]
      have hmem : ∀ i, i < m → suffixName base (2 + i) ∈
          claimedNames base (m + 1) := by
        intro i hi
        exact (mem_claimedNames_suffix base (by omega)).mpr (by omega)
      have hfree : suffixName base (2 + m) ∉ claimedNames base (m + 1) := by
        intro hmem'
        have := (mem_claimedNames_suffix base (by omega)).mp hmem'
        omega
      rw [firstFreeIndex_run (claimedNames base (m + 1)) base m (m + 1 + 1) 2
        hmem hfree (by omega)]
      omega

/-- C7: starting from an empty store, `N` `create_instance` calls that
all request the name `X` produce exactly the names
`X, X (2), …, X (N)`, in order; in particular the first call with a fresh
name yields exactly `X`. -/
theorem c7_create_instance_name_sequence (base : String) (n : Nat) :
    createInstanceNames base n = claimedNames base n := by
  induction n with
  | zero => rfl
  | succ m ih =>
      show createInstanceNames base m ++
          [uniqueName (createInstanceNames base m) base] =
        claimedNames base (m + 1)
      rw [ih, uniqueName_claimedNames]
      unfold claimedNames
      rw [List.range_succ, List.map_append]
      rfl

end TauriMc
